import Mathlib

/-!
Shallow embedding of `recorder.py` from Capstone_Zendar_2019_2020.

Rotations (scipy `Rotation` objects) are modelled as 3x3 matrices over a
commutative ring: `apply v` is matrix-vector product, `apply v (inverse=True)`
is product with the transpose (the exact inverse of an orthogonal matrix),
and `p * q` (scipy composition) is matrix multiplication.  The geometric
pipeline of the repository is over rationals wherever the code is exact
arithmetic on vectors, and over the reals for the trigonometric ENU rotation.
-/

structure Vec3 (α : Type) where
  x : α
  y : α
  z : α
deriving DecidableEq, Repr

structure Mat3 (α : Type) where
  r1 : Vec3 α
  r2 : Vec3 α
  r3 : Vec3 α
deriving DecidableEq, Repr

variable {α : Type} [CommRing α]

def Vec3.dot (u v : Vec3 α) : α :=
  u.x * v.x + u.y * v.y + u.z * v.z

instance : Add (Vec3 α) where
  add u v := ⟨u.x + v.x, u.y + v.y, u.z + v.z⟩

instance : Sub (Vec3 α) where
  sub u v := ⟨u.x - v.x, u.y - v.y, u.z - v.z⟩

instance : Zero (Vec3 α) where
  zero := ⟨0, 0, 0⟩

def Mat3.col1 (M : Mat3 α) : Vec3 α := ⟨M.r1.x, M.r2.x, M.r3.x⟩

def Mat3.col2 (M : Mat3 α) : Vec3 α := ⟨M.r1.y, M.r2.y, M.r3.y⟩

def Mat3.col3 (M : Mat3 α) : Vec3 α := ⟨M.r1.z, M.r2.z, M.r3.z⟩

/-- Forward application of a rotation to a vector: scipy `R.apply(v)`. -/
def Mat3.apply (M : Mat3 α) (v : Vec3 α) : Vec3 α :=
  ⟨M.r1.dot v, M.r2.dot v, M.r3.dot v⟩

def Mat3.transpose (M : Mat3 α) : Mat3 α :=
  ⟨M.col1, M.col2, M.col3⟩

/-- Inverse application of a rotation: scipy `R.apply(v, True)`.  For the
orthogonal matrices scipy's `Rotation` type guarantees, the inverse rotation
acts as the transpose. -/
def Mat3.applyInv (M : Mat3 α) (v : Vec3 α) : Vec3 α :=
  M.transpose.apply v

/-- Composition of rotations: scipy `p * q` (matrix product). -/
def Mat3.mul (A B : Mat3 α) : Mat3 α :=
  ⟨⟨A.r1.dot B.col1, A.r1.dot B.col2, A.r1.dot B.col3⟩,
   ⟨A.r2.dot B.col1, A.r2.dot B.col2, A.r2.dot B.col3⟩,
   ⟨A.r3.dot B.col1, A.r3.dot B.col2, A.r3.dot B.col3⟩⟩

def Mat3.id : Mat3 α :=
  ⟨⟨1, 0, 0⟩, ⟨0, 1, 0⟩, ⟨0, 0, 1⟩⟩

/-- The `Rotation` data-model invariant: a proper orthogonal transform
(here: transpose is a left inverse). -/
def Mat3.IsOrthogonal (M : Mat3 α) : Prop :=
  M.transpose.mul M = Mat3.id

theorem Mat3.mul_apply (A B : Mat3 α) (v : Vec3 α) :
    (A.mul B).apply v = A.apply (B.apply v) := by
  refine Vec3.mk.injEq .. ▸ ⟨?_, ?_, ?_⟩ <;>
    simp [Mat3.mul, Mat3.apply, Vec3.dot, Mat3.col1, Mat3.col2, Mat3.col3] <;> ring

theorem Mat3.id_apply (v : Vec3 α) : (Mat3.id).apply v = v := by
  refine Vec3.mk.injEq .. ▸ ⟨?_, ?_, ?_⟩ <;>
    simp [Mat3.id, Mat3.apply, Vec3.dot]

theorem Vec3.add_def (u v : Vec3 α) :
    u + v = ⟨u.x + v.x, u.y + v.y, u.z + v.z⟩ := rfl

theorem Vec3.sub_def (u v : Vec3 α) :
    u - v = ⟨u.x - v.x, u.y - v.y, u.z - v.z⟩ := rfl

theorem Vec3.zero_def : (0 : Vec3 α) = ⟨0, 0, 0⟩ := rfl

theorem Vec3.sub_zero (v : Vec3 α) : v - (0 : Vec3 α) = v := by
  simp [Vec3.sub_def, Vec3.zero_def]

/-- `rbd_translate`, single-pose branch (`gps_positions.ndim == 1`):
`attitudes.apply(attitudes.apply(gps_positions) - trans, True)`. -/
def rbd_translate (gps_positions : Vec3 α) (attitudes : Mat3 α)
    (trans : Vec3 α) : Vec3 α :=
  attitudes.applyInv (attitudes.apply gps_positions - trans)

/-- `rbd_translate`, batch branch: the loop
`car_pos.append(attitudes[i].apply(attitudes[i].apply(gps_positions[i]) - trans, True))`
over parallel sequences. -/
def rbd_translate_batch (gps_positions : List (Vec3 α)) (attitudes : List (Mat3 α))
    (trans : Vec3 α) : List (Vec3 α) :=
  List.zipWith (fun p a => a.applyInv (a.apply p - trans)) gps_positions attitudes

/-- Modelled from the spec (§4.3): `translateToReference` computes the
reference-point position as `attitude.applyInverse(attitude.apply(position) - boresight)`. -/
def translateToReference (position : Vec3 α) (attitude : Mat3 α)
    (boresight : Vec3 α) : Vec3 α :=
  attitude.applyInv (attitude.apply position - boresight)

/-!
## PoseIntegrator (`get_measured_attitude` / `get_measured_positions`)

The sensor-log reader collaborator is modelled by the data the two loops
consume: the seed pose `get_gps_pos(0)` / `get_gps_att(0)`, the timestamp
sequence `get_timestamps(0, np.inf)`, and the frame-aligner call
`get_radardata(t).image_transformation_from(get_radardata(s))`, which
returns a (translation, rotation) pair for the ordered pair of timestamps
`(t, s)`.
-/

structure Reader (α : Type) where
  gps_pos0 : Vec3 α
  gps_att0 : Mat3 α
  timestamps : List α
  transform : α → α → Vec3 α × Mat3 α

/-- The consecutive timestamp pairs `(times[i-1], times[i])` the loops
`for i in range(1, len(times))` walk over. -/
def stepTimes (times : List α) : List (α × α) :=
  times.zip times.tail

/-- The loop body of `get_measured_attitude`: starting from the running
attitude `att`, each step appends `measured_att[-1]*rotation` where
`rotation` comes from `image_transformation_from` at the pair of
timestamps. -/
def measuredAttFrom (r : Reader α) (att : Mat3 α) : List (α × α) → List (Mat3 α)
  | [] => [att]
  | (prev, cur) :: rest =>
      att :: measuredAttFrom r (att.mul (r.transform cur prev).2) rest

/-- `Recorder.get_measured_attitude`. -/
def get_measured_attitude (r : Reader α) : List (Mat3 α) :=
  measuredAttFrom r r.gps_att0 (stepTimes r.timestamps)

/-- The loop body of `get_measured_positions`: each step appends
`measured_pos[-1] + measured_att[-1].apply(translation, True)` and then
`measured_att[-1]*rotation`; the first component of the result is
`measured_pos`, the second the internal `measured_att`. -/
def measuredPosAttFrom (r : Reader α) (pos : Vec3 α) (att : Mat3 α) :
    List (α × α) → List (Vec3 α) × List (Mat3 α)
  | [] => ([pos], [att])
  | (prev, cur) :: rest =>
      let tr := r.transform cur prev
      let res := measuredPosAttFrom r (pos + att.applyInv tr.1) (att.mul tr.2) rest
      (pos :: res.1, att :: res.2)

/-- `Recorder.get_measured_positions`. -/
def get_measured_positions (r : Reader α) : List (Vec3 α) :=
  (measuredPosAttFrom r r.gps_pos0 r.gps_att0 (stepTimes r.timestamps)).1

/-!
## StateRecorder (`Recorder.record` / `get_positions` / `get_attitude`)

`kalman_record` is a Python `dict`; a Python 3.7+ `dict` iterates keys and
values in insertion order, an update of an existing key keeping the key's
original position.  `dictInsert` models `d[k] = v` on an association list
with exactly these semantics; `dictValues` models `d.values()`.
-/

structure KalmanState (α : Type) where
  position : Vec3 α
  attitude : Mat3 α
  covariance : Mat3 α
deriving DecidableEq, Repr

variable [DecidableEq α]

def dictInsert {β : Type} (k : α) (v : β) : List (α × β) → List (α × β)
  | [] => [(k, v)]
  | (k', v') :: rest =>
      if k = k' then (k, v) :: rest else (k', v') :: dictInsert k v rest

def dictValues {β : Type} (d : List (α × β)) : List β :=
  d.map Prod.snd

/-- The recorder's state: the `kalman_record` dictionary plus the live
`kalman` estimator it snapshots. -/
structure RecorderState (α : Type) where
  kalman_record : List (α × KalmanState α)
  kalman : KalmanState α

/-- `Recorder.record(ts)`: `self.kalman_record[ts] = deepcopy(self.kalman)`.
At the level of values a deep copy stores the current value of the live
estimator. -/
def record (r : RecorderState α) (ts : α) : RecorderState α :=
  { r with kalman_record := dictInsert ts r.kalman r.kalman_record }

/-- An external mutation of the live estimator between records. -/
def setKalman (r : RecorderState α) (s : KalmanState α) : RecorderState α :=
  { r with kalman := s }

/-- `Recorder.get_positions`: `[kalman.position for kalman in self.kalman_record.values()]`. -/
def get_positions (r : RecorderState α) : List (Vec3 α) :=
  (dictValues r.kalman_record).map KalmanState.position

/-- `Recorder.get_attitude`: `np.ravel([kalman.attitude for kalman in self.kalman_record.values()])`. -/
def get_attitude (r : RecorderState α) : List (Mat3 α) :=
  (dictValues r.kalman_record).map KalmanState.attitude

/-- Replay a sequence of (mutate the live estimator to `s`, `record ts`)
events, mirroring a fusion loop that updates the filter then records it. -/
def applyRecords (r : RecorderState α) : List (α × KalmanState α) → RecorderState α
  | [] => r
  | (ts, s) :: rest => applyRecords (record (setKalman r s) ts) rest

/-!
## Aliasing model for `record`'s deep copy

To state the no-aliasing property of `deepcopy(self.kalman)`, estimator
states live in an explicit heap of cells addressed by natural-number
references; the deep copy allocates a fresh cell holding a copy of the
live estimator's current content, while an in-place mutation of the live
estimator writes through its reference.
-/

def defaultKalman : KalmanState α :=
  ⟨0, Mat3.id, Mat3.id⟩

def heapRead (h : List (KalmanState α)) (ref : ℕ) : KalmanState α :=
  h.getD ref defaultKalman

def dictGet {β : Type} (k : α) : List (α × β) → Option β
  | [] => none
  | (k', v) :: rest => if k = k' then some v else dictGet k rest

structure RecorderHeap (α : Type) where
  heap : List (KalmanState α)
  kalmanRef : ℕ
  recordRefs : List (α × ℕ)

/-- `Recorder.record(ts)` with aliasing made explicit: `deepcopy` allocates
a fresh heap cell carrying a copy of the live estimator's content, and the
dictionary stores that fresh reference. -/
def recordH (r : RecorderHeap α) (ts : α) : RecorderHeap α :=
  { r with
    heap := r.heap ++ [heapRead r.heap r.kalmanRef]
    recordRefs := dictInsert ts r.heap.length r.recordRefs }

/-- In-place mutation of the live estimator's fields through its
reference (what the fusion loop does to `self.kalman` between records). -/
def mutateKalman (r : RecorderHeap α) (s : KalmanState α) : RecorderHeap α :=
  { r with heap := r.heap.set r.kalmanRef s }

/-- The snapshot stored under timestamp `ts`: `self.kalman_record[ts]`. -/
def snapshotAt (r : RecorderHeap α) (ts : α) : Option (KalmanState α) :=
  (dictGet ts r.recordRefs).map (heapRead r.heap)

/-- `get_positions` in the heap model. -/
def get_positionsH (r : RecorderHeap α) : List (Vec3 α) :=
  (dictValues r.recordRefs).map fun ref => (heapRead r.heap ref).position

/-- `get_attitude` in the heap model. -/
def get_attitudeH (r : RecorderHeap α) : List (Mat3 α) :=
  (dictValues r.recordRefs).map fun ref => (heapRead r.heap ref).attitude

/-!
## FrameRotation (`ecef2enu`), over the reals
-/

noncomputable def MatNorthPole : Mat3 ℝ :=
  ⟨⟨-1, 0, 0⟩, ⟨0, -1, 0⟩, ⟨0, 0, 1⟩⟩

/-- The latitude factor of `ecef2enu`:
`sColat = sin(pi/2 - lat0)`, `cColat = cos(pi/2 - lat0)`. -/
noncomputable def MatLat (lat0 : ℝ) : Mat3 ℝ :=
  ⟨⟨Real.cos (Real.pi / 2 - lat0), 0, Real.sin (Real.pi / 2 - lat0)⟩,
   ⟨0, 1, 0⟩,
   ⟨-Real.sin (Real.pi / 2 - lat0), 0, Real.cos (Real.pi / 2 - lat0)⟩⟩

/-- The longitude factor of `ecef2enu`. -/
noncomputable def Matlon (lon0 : ℝ) : Mat3 ℝ :=
  ⟨⟨Real.cos lon0, -Real.sin lon0, 0⟩,
   ⟨Real.sin lon0, Real.cos lon0, 0⟩,
   ⟨0, 0, 1⟩⟩

/-- The fixed axis permutation `[[0,-1,0],[1,0,0],[0,0,1]]` applied last. -/
noncomputable def permECEF : Mat3 ℝ :=
  ⟨⟨0, -1, 0⟩, ⟨1, 0, 0⟩, ⟨0, 0, 1⟩⟩

/-- `ecef2enu(lat0, lon0)`:
`rot.from_dcm([[0,-1,0],[1,0,0],[0,0,1]].dot((Matlon.dot(MatLat.dot(MatNorthPole))).T))`. -/
noncomputable def ecef2enu (lat0 lon0 : ℝ) : Mat3 ℝ :=
  permECEF.mul ((Matlon lon0).mul ((MatLat lat0).mul MatNorthPole)).transpose

/-- The local "up" unit vector at a geodetic point, in ECEF coordinates. -/
noncomputable def localUp (lat lon : ℝ) : Vec3 ℝ :=
  ⟨Real.cos lat * Real.cos lon, Real.cos lat * Real.sin lon, Real.sin lat⟩

/-!
## Helper lemmas about the integrator loops
-/

theorem measuredPosAtt_snd (r : Reader α) (pos : Vec3 α) (att : Mat3 α)
    (steps : List (α × α)) :
    (measuredPosAttFrom r pos att steps).2 = measuredAttFrom r att steps := by
  induction steps generalizing pos att with
  | nil => rfl
  | cons hd tl ih =>
      cases hd
      simp [measuredPosAttFrom, measuredAttFrom, ih]

theorem measuredAttFrom_length (r : Reader α) (att : Mat3 α) (steps : List (α × α)) :
    (measuredAttFrom r att steps).length = steps.length + 1 := by
  induction steps generalizing att with
  | nil => rfl
  | cons hd tl ih =>
      cases hd
      simp [measuredAttFrom, ih]

theorem measuredPosAtt_fst_length (r : Reader α) (pos : Vec3 α) (att : Mat3 α)
    (steps : List (α × α)) :
    (measuredPosAttFrom r pos att steps).1.length = steps.length + 1 := by
  induction steps generalizing pos att with
  | nil => rfl
  | cons hd tl ih =>
      cases hd
      simp [measuredPosAttFrom, ih]

theorem measuredAttFrom_head (r : Reader α) (att : Mat3 α) (steps : List (α × α))
    (d : Mat3 α) : (measuredAttFrom r att steps).getD 0 d = att := by
  cases steps with
  | nil => rfl
  | cons hd tl => cases hd; rfl

theorem measuredPosAtt_fst_head (r : Reader α) (pos : Vec3 α) (att : Mat3 α)
    (steps : List (α × α)) (d : Vec3 α) :
    (measuredPosAttFrom r pos att steps).1.getD 0 d = pos := by
  cases steps with
  | nil => rfl
  | cons hd tl => cases hd; rfl

theorem measuredAttFrom_step (r : Reader α) (att : Mat3 α) (steps : List (α × α))
    (i : ℕ) (h : i < steps.length) :
    (measuredAttFrom r att steps).getD (i + 1) Mat3.id =
      ((measuredAttFrom r att steps).getD i Mat3.id).mul
        (r.transform (steps.getD i (0, 0)).2 (steps.getD i (0, 0)).1).2 := by
  induction steps generalizing att i with
  | nil => simp at h
  | cons hd tl ih =>
      cases hd with
      | mk prev cur =>
          cases i with
          | zero =>
              simp only [measuredAttFrom, List.getD_cons_succ, List.getD_cons_zero,
                measuredAttFrom_head]
          | succ j =>
              have hj : j < tl.length := by simpa using h
              simp only [measuredAttFrom, List.getD_cons_succ]
              exact ih (att.mul (r.transform cur prev).2) j hj

theorem measuredPosAtt_fst_step (r : Reader α) (pos : Vec3 α) (att : Mat3 α)
    (steps : List (α × α)) (i : ℕ) (h : i < steps.length) :
    (measuredPosAttFrom r pos att steps).1.getD (i + 1) 0 =
      (measuredPosAttFrom r pos att steps).1.getD i 0 +
        ((measuredAttFrom r att steps).getD i Mat3.id).applyInv
          (r.transform (steps.getD i (0, 0)).2 (steps.getD i (0, 0)).1).1 := by
  induction steps generalizing pos att i with
  | nil => simp at h
  | cons hd tl ih =>
      cases hd with
      | mk prev cur =>
          cases i with
          | zero =>
              simp only [measuredPosAttFrom, measuredAttFrom, List.getD_cons_succ,
                List.getD_cons_zero, measuredPosAtt_fst_head, measuredAttFrom_head]
          | succ j =>
              have hj : j < tl.length := by simpa using h
              simp only [measuredPosAttFrom, measuredAttFrom, List.getD_cons_succ]
              exact ih (pos + att.applyInv (r.transform cur prev).1)
                (att.mul (r.transform cur prev).2) j hj

theorem stepTimes_length (times : List α) :
    (stepTimes times).length = times.length - 1 := by
  simp [stepTimes]

theorem stepTimes_getD (times : List α) (i : ℕ) (h : i + 1 < times.length) :
    (stepTimes times).getD i (0, 0) = (times.getD i 0, times.getD (i + 1) 0) := by
  induction times generalizing i with
  | nil => simp at h
  | cons a tl ih =>
      cases tl with
      | nil => simp at h
      | cons b tl2 =>
          cases i with
          | zero => rfl
          | succ j =>
              have hj : j + 1 < (b :: tl2).length := by simpa using h
              simpa [stepTimes] using ih j hj

/-!
## Helper lemmas about the dictionary and heap models
-/

theorem dictInsert_of_not_mem {β : Type} (k : α) (v : β) (d : List (α × β))
    (h : k ∉ d.map Prod.fst) : dictInsert k v d = d ++ [(k, v)] := by
  induction d with
  | nil => rfl
  | cons hd tl ih =>
      cases hd with
      | mk k' v' =>
          have hne : k ≠ k' := by
            intro hk
            exact h (by simp [hk])
          have htl : k ∉ tl.map Prod.fst := by
            intro hk
            exact h (by simp [hk])
          simp [dictInsert, hne, ih htl]

theorem applyRecords_kalman_record (r : RecorderState α) (ops : List (α × KalmanState α))
    (hfresh : ∀ k ∈ ops.map Prod.fst, k ∉ r.kalman_record.map Prod.fst)
    (hnodup : (ops.map Prod.fst).Nodup) :
    (applyRecords r ops).kalman_record = r.kalman_record ++ ops := by
  induction ops generalizing r with
  | nil => simp [applyRecords]
  | cons hd tl ih =>
      cases hd with
      | mk ts s =>
          have hts : ts ∉ r.kalman_record.map Prod.fst := hfresh ts (by simp)
          have hrec : (record (setKalman r s) ts).kalman_record =
              r.kalman_record ++ [(ts, s)] := by
            simp [record, setKalman, dictInsert_of_not_mem ts s r.kalman_record hts]
          have hnodup' : (tl.map Prod.fst).Nodup := by
            simpa using hnodup.of_cons
          have hfresh' : ∀ k ∈ tl.map Prod.fst,
              k ∉ (record (setKalman r s) ts).kalman_record.map Prod.fst := by
            intro k hk
            rw [hrec]
            have hkr : k ∉ r.kalman_record.map Prod.fst := hfresh k (by simp [hk])
            have hkts : k ≠ ts := by
              intro hkk
              subst hkk
              exact (List.nodup_cons.mp (by simpa using hnodup)).1 hk
            simp [hkr, hkts]
          calc (applyRecords r ((ts, s) :: tl)).kalman_record
              = (applyRecords (record (setKalman r s) ts) tl).kalman_record := rfl
            _ = (record (setKalman r s) ts).kalman_record ++ tl := ih _ hfresh' hnodup'
            _ = r.kalman_record ++ ((ts, s) :: tl) := by simp [hrec]

theorem heapRead_set_ne (h : List (KalmanState α)) (i j : ℕ) (s : KalmanState α)
    (hij : j ≠ i) : heapRead (h.set i s) j = heapRead h j := by
  induction h generalizing i j with
  | nil => rfl
  | cons a t ih =>
      cases i with
      | zero =>
          cases j with
          | zero => exact absurd rfl hij
          | succ j' => rfl
      | succ i' =>
          cases j with
          | zero => rfl
          | succ j' =>
              have : j' ≠ i' := fun hh => hij (by simp [hh])
              simpa [heapRead, List.set] using ih i' j' this

theorem dictGet_mem {β : Type} (k : α) (d : List (α × β)) (v : β)
    (h : dictGet k d = some v) : (k, v) ∈ d := by
  induction d with
  | nil => simp [dictGet] at h
  | cons hd tl ih =>
      cases hd with
      | mk k' v' =>
          by_cases hk : k = k'
          · subst hk
            simp [dictGet] at h
            simp [h]
          · simp [dictGet, hk] at h
            exact List.mem_cons_of_mem _ (ih h)

theorem mem_dictInsert {β : Type} (k : α) (v : β) (d : List (α × β))
    (p : α × β) (h : p ∈ dictInsert k v d) : p = (k, v) ∨ p ∈ d := by
  induction d with
  | nil => simpa [dictInsert] using h
  | cons hd tl ih =>
      cases hd with
      | mk k' v' =>
          by_cases hk : k = k'
          · subst hk
            simp [dictInsert] at h
            rcases h with h | h
            · exact Or.inl (by simp [h])
            · exact Or.inr (List.mem_cons_of_mem _ h)
          · simp [dictInsert, hk] at h
            rcases h with h | h
            · exact Or.inr (by simp [h])
            · rcases ih h with h' | h'
              · exact Or.inl h'
              · exact Or.inr (List.mem_cons_of_mem _ h')

/-!
## Concrete instances used in counterexamples and witnesses
-/

/-- An integral proper rotation by 90 degrees about the z axis; it differs
from its transpose, so forward and inverse application disagree. -/
def rotZ90 : Mat3 ℤ :=
  ⟨⟨0, -1, 0⟩, ⟨1, 0, 0⟩, ⟨0, 0, 1⟩⟩

/-- A two-frame reader whose seed attitude is `rotZ90` and whose frame
aligner reports translation `(1,0,0)` with incremental rotation `rotZ90`. -/
def exampleReader : Reader ℤ :=
  ⟨0, rotZ90, [0, 1], fun _ _ => (⟨1, 0, 0⟩, rotZ90)⟩

/-- A three-frame reader with the non-increasing timestamp sequence
`[3, 1, 2]`. -/
def exampleReader3 : Reader ℤ :=
  ⟨0, Mat3.id, [3, 1, 2], fun _ _ => (⟨1, 0, 0⟩, Mat3.id)⟩

/-- Strict ascending order of a timestamp sequence. -/
def StrictlyIncreasing : List ℤ → Prop
  | [] => True
  | [_] => True
  | a :: b :: rest => a < b ∧ StrictlyIncreasing (b :: rest)

instance instDecStrictlyIncreasing : (l : List ℤ) → Decidable (StrictlyIncreasing l)
  | [] => isTrue trivial
  | [_] => isTrue trivial
  | a :: b :: rest =>
      have : Decidable (StrictlyIncreasing (b :: rest)) :=
        instDecStrictlyIncreasing (b :: rest)
      inferInstanceAs (Decidable (a < b ∧ StrictlyIncreasing (b :: rest)))

instance (M : Mat3 α) : Decidable (Mat3.IsOrthogonal M) :=
  inferInstanceAs (Decidable (M.transpose.mul M = Mat3.id))

def kalmanA : KalmanState ℤ := ⟨⟨3, 0, 0⟩, Mat3.id, Mat3.id⟩

def kalmanB : KalmanState ℤ := ⟨⟨1, 0, 0⟩, rotZ90, Mat3.id⟩

def kalmanC : KalmanState ℤ := ⟨⟨2, 0, 0⟩, Mat3.id, Mat3.id⟩

/-- A freshly constructed recorder: empty dictionary, some live
estimator. -/
def emptyRecorderG : RecorderState α :=
  ⟨[], defaultKalman⟩

/-!
## C1: position recurrence of the PoseIntegrator
-/

/-- C1 counterexample: the position recurrence does **not** use the forward
application of the previous attitude.  With seed attitude `rotZ90`, seed
position `0` and relative translation `(1,0,0)`, the code produces
`position[1] = (0,-1,0)` while `position[0] + attitude[0].apply(translation)`
is `(0,1,0)`. -/
theorem C1_counterexample :
    (get_measured_positions exampleReader).getD 1 0 = ⟨0, -1, 0⟩ ∧
    (get_measured_positions exampleReader).getD 1 0 ≠
      (get_measured_positions exampleReader).getD 0 0 +
        ((get_measured_attitude exampleReader).getD 0 Mat3.id).apply
          (exampleReader.transform (exampleReader.timestamps.getD 1 0)
            (exampleReader.timestamps.getD 0 0)).1 := by
  decide

/-- C1 (amended): for every reader and every step, the position recurrence
accumulates the relative translation rotated by the **inverse** of the
previous attitude: `position[i+1] = position[i] + attitude[i].applyInverse(translation[i+1])`. -/
theorem C1_position_recurrence (r : Reader α) (i : ℕ)
    (h : i + 1 < r.timestamps.length) :
    (get_measured_positions r).getD (i + 1) 0 =
      (get_measured_positions r).getD i 0 +
        ((get_measured_attitude r).getD i Mat3.id).applyInv
          (r.transform (r.timestamps.getD (i + 1) 0) (r.timestamps.getD i 0)).1 := by
  have hi : i < (stepTimes r.timestamps).length := by
    rw [stepTimes_length]
    omega
  have hstep := measuredPosAtt_fst_step r r.gps_pos0 r.gps_att0
    (stepTimes r.timestamps) i hi
  rw [stepTimes_getD r.timestamps i h] at hstep
  exact hstep

/-- C1 witness: the amended recurrence at the concrete two-frame reader. -/
theorem C1_witness :
    (get_measured_positions exampleReader).getD 1 0 =
      (get_measured_positions exampleReader).getD 0 0 +
        ((get_measured_attitude exampleReader).getD 0 Mat3.id).applyInv
          (exampleReader.transform (exampleReader.timestamps.getD 1 0)
            (exampleReader.timestamps.getD 0 0)).1 :=
  C1_position_recurrence exampleReader 0 (by decide)

/-!
## C3: no fail-fast on non-increasing timestamps
-/

/-- C3 counterexample: on the non-increasing timestamp sequence `[3, 1, 2]`
the integrator raises no error and returns a full three-element
trajectory. -/
theorem C3_counterexample :
    ¬ StrictlyIncreasing exampleReader3.timestamps ∧
      get_measured_positions exampleReader3 =
        [⟨0, 0, 0⟩, ⟨1, 0, 0⟩, ⟨2, 0, 0⟩] := by
  decide

/-- C3 (amended): the integrator performs no ordering validation at all:
for every reader, including every non-increasing timestamp sequence, both
`get_measured_positions` and `get_measured_attitude` return a complete
trajectory with one pose per timestamp (and the bare seed for an empty
sequence); no error value exists in their signatures. -/
theorem C3_no_ordering_check (r : Reader α) :
    (get_measured_positions r).length = max 1 r.timestamps.length ∧
      (get_measured_attitude r).length = max 1 r.timestamps.length := by
  constructor
  · rw [get_measured_positions, measuredPosAtt_fst_length, stepTimes_length]
    omega
  · rw [get_measured_attitude, measuredAttFrom_length, stepTimes_length]
    omega

/-!
## C4: attitude recurrence of the PoseIntegrator
-/

/-- C4: the attitude sequence starts at the seed attitude exactly and
composes each incremental rotation on the right of the previous attitude:
`attitude[i+1] = attitude[i] * rotation[i+1]`. -/
theorem C4_attitude_recurrence (r : Reader α) :
    (get_measured_attitude r).getD 0 Mat3.id = r.gps_att0 ∧
      ∀ i : ℕ, i + 1 < r.timestamps.length →
        (get_measured_attitude r).getD (i + 1) Mat3.id =
          ((get_measured_attitude r).getD i Mat3.id).mul
            (r.transform (r.timestamps.getD (i + 1) 0) (r.timestamps.getD i 0)).2 := by
  constructor
  · exact measuredAttFrom_head r r.gps_att0 (stepTimes r.timestamps) Mat3.id
  · intro i h
    have hi : i < (stepTimes r.timestamps).length := by
      rw [stepTimes_length]
      omega
    have hstep := measuredAttFrom_step r r.gps_att0 (stepTimes r.timestamps) i hi
    rw [stepTimes_getD r.timestamps i h] at hstep
    exact hstep

/-- C4 witness: seed equality and one recurrence step at the concrete
two-frame reader. -/
theorem C4_witness :
    (get_measured_attitude exampleReader).getD 0 Mat3.id =
        exampleReader.gps_att0 ∧
      (get_measured_attitude exampleReader).getD 1 Mat3.id =
        ((get_measured_attitude exampleReader).getD 0 Mat3.id).mul
          (exampleReader.transform (exampleReader.timestamps.getD 1 0)
            (exampleReader.timestamps.getD 0 0)).2 :=
  ⟨(C4_attitude_recurrence exampleReader).1,
    (C4_attitude_recurrence exampleReader).2 0 (by decide)⟩

/-!
## C10: the two integrator loops agree on attitudes
-/

/-- C10: the attitude sequence `get_measured_positions` maintains internally
(the second component of its loop state) is exactly the sequence
`get_measured_attitude` returns, for every reader. -/
theorem C10_internal_attitude_agreement (r : Reader α) :
    (measuredPosAttFrom r r.gps_pos0 r.gps_att0 (stepTimes r.timestamps)).2 =
      get_measured_attitude r :=
  measuredPosAtt_snd r r.gps_pos0 r.gps_att0 (stepTimes r.timestamps)

/-!
## C2: projection order of the recorder
-/

/-- C2 counterexample: recording at timestamps 3, 1, 2 and projecting
returns the snapshots in insertion order 3, 1, 2, not in ascending
timestamp order 1, 2, 3. -/
theorem C2_counterexample :
    get_positions (applyRecords emptyRecorderG
        [(3, kalmanA), (1, kalmanB), (2, kalmanC)]) =
      [kalmanA.position, kalmanB.position, kalmanC.position] ∧
    get_positions (applyRecords emptyRecorderG
        [(3, kalmanA), (1, kalmanB), (2, kalmanC)]) ≠
      [kalmanB.position, kalmanC.position, kalmanA.position] := by
  decide

/-- C2 (amended): for every sequence of `record` calls with pairwise
distinct timestamps, `get_positions` and `get_attitude` return the stored
snapshots in **insertion order** (the iteration order of a Python dict),
regardless of the timestamp values. -/
theorem C2_insertion_order (ops : List (α × KalmanState α)) (hnodup : (ops.map Prod.fst).Nodup) :
    get_positions (applyRecords emptyRecorderG ops) =
        ops.map (fun p => p.2.position) ∧
      get_attitude (applyRecords emptyRecorderG ops) =
        ops.map (fun p => p.2.attitude) := by
  have h := applyRecords_kalman_record emptyRecorderG ops
    (by intro k hk; simp [emptyRecorderG]) hnodup
  simp [emptyRecorderG] at h
  constructor <;>
    simp [get_positions, get_attitude, dictValues, emptyRecorderG, h,
      Function.comp]

/-- C2 witness: the amended insertion-order statement at the concrete
out-of-order recording 3, 1, 2. -/
theorem C2_witness :
    get_positions (applyRecords emptyRecorderG
        [((3 : ℤ), kalmanA), (1, kalmanB), (2, kalmanC)]) =
      [kalmanA.position, kalmanB.position, kalmanC.position] ∧
    get_attitude (applyRecords emptyRecorderG
        [((3 : ℤ), kalmanA), (1, kalmanB), (2, kalmanC)]) =
      [kalmanA.attitude, kalmanB.attitude, kalmanC.attitude] :=
  C2_insertion_order [(3, kalmanA), (1, kalmanB), (2, kalmanC)] (by decide)

/-!
## C5 and C6: BodyFrameTranslate
-/

/-- C5: `rbd_translate` computes, in both its single-pose and its batch
branch, exactly the spec's three-step composition
`attitude.applyInverse(attitude.apply(position) - boresight)`, the batch
branch applying it to each parallel (position, attitude) pair. -/
theorem C5_translate_three_step (p : Vec3 α) (A : Mat3 α) (t : Vec3 α)
    (ps : List (Vec3 α)) (atts : List (Mat3 α)) :
    rbd_translate p A t = translateToReference p A t ∧
      rbd_translate_batch ps atts t =
        List.zipWith (fun pi ai => translateToReference pi ai t) ps atts :=
  ⟨rfl, rfl⟩

theorem rbd_translate_zero_of_orthogonal (p : Vec3 α) (A : Mat3 α)
    (hA : A.IsOrthogonal) : rbd_translate p A 0 = p := by
  have h1 : rbd_translate p A 0 = (A.transpose.mul A).apply p := by
    rw [rbd_translate, Mat3.applyInv, Vec3.sub_zero, Mat3.mul_apply]
  rw [h1, hA, Mat3.id_apply]

theorem rbd_translate_batch_zero_of_orthogonal (ps : List (Vec3 α))
    (atts : List (Mat3 α)) (hlen : ps.length = atts.length)
    (horth : ∀ B ∈ atts, B.IsOrthogonal) :
    rbd_translate_batch ps atts 0 = ps := by
  induction ps generalizing atts with
  | nil => rfl
  | cons q qs ih =>
      cases atts with
      | nil => simp at hlen
      | cons B Bs =>
          have hB : B.IsOrthogonal := horth B (by simp)
          have hstep : rbd_translate_batch (q :: qs) (B :: Bs) 0 =
              rbd_translate q B 0 :: rbd_translate_batch qs Bs 0 := rfl
          rw [hstep, rbd_translate_zero_of_orthogonal q B hB,
            ih Bs (by simpa using hlen) (fun C hC => horth C (by simp [hC]))]

/-- C6: with the zero boresight vector, `rbd_translate` is the identity on
positions, exactly, for any attitudes — in the single-pose branch and in
the batch branch over parallel sequences of equal length.  (The
orthogonality hypotheses state the `Rotation` data-model invariant scipy
guarantees for every attitude object.) -/
theorem C6_zero_boresight_identity (p : Vec3 α) (A : Mat3 α)
    (hA : A.IsOrthogonal) (ps : List (Vec3 α)) (atts : List (Mat3 α))
    (hlen : ps.length = atts.length)
    (horth : ∀ B ∈ atts, B.IsOrthogonal) :
    rbd_translate p A 0 = p ∧ rbd_translate_batch ps atts 0 = ps :=
  ⟨rbd_translate_zero_of_orthogonal p A hA,
    rbd_translate_batch_zero_of_orthogonal ps atts hlen horth⟩

/-- C6 witness: zero boresight at a concrete non-identity rotation. -/
theorem C6_witness :
    rbd_translate (⟨1, 2, 3⟩ : Vec3 ℤ) rotZ90 0 = ⟨1, 2, 3⟩ ∧
      rbd_translate_batch [(⟨1, 2, 3⟩ : Vec3 ℤ), ⟨4, 5, 6⟩] [rotZ90, Mat3.id] 0 =
        [⟨1, 2, 3⟩, ⟨4, 5, 6⟩] :=
  C6_zero_boresight_identity ⟨1, 2, 3⟩ rotZ90 (by decide)
    [⟨1, 2, 3⟩, ⟨4, 5, 6⟩] [rotZ90, Mat3.id] (by decide) (by decide)

/-!
## C9: independence of recorded snapshots from later mutations
-/

/-- C9: `record(ts)` stores a fully independent copy: after `record ts`,
any in-place mutation of the live estimator's fields leaves the snapshot
stored under `ts` — and therefore the outputs of `get_positions` and
`get_attitude` — unchanged.  The hypotheses say the live reference is a
valid heap cell not aliased by previously recorded snapshots (which
`deepcopy` guarantees, each snapshot living in a fresh cell). -/
theorem C9_deepcopy_no_alias (r : RecorderHeap α) (ts : α) (s : KalmanState α)
    (h1 : r.kalmanRef < r.heap.length)
    (h2 : ∀ p ∈ r.recordRefs, p.2 ≠ r.kalmanRef) :
    snapshotAt (mutateKalman (recordH r ts) s) ts =
        snapshotAt (recordH r ts) ts ∧
      get_positionsH (mutateKalman (recordH r ts) s) =
        get_positionsH (recordH r ts) ∧
      get_attitudeH (mutateKalman (recordH r ts) s) =
        get_attitudeH (recordH r ts) := by
  have hrefs : ∀ p ∈ (recordH r ts).recordRefs, p.2 ≠ r.kalmanRef := by
    intro p hp
    rcases mem_dictInsert ts r.heap.length r.recordRefs p hp with h | h
    · rw [h]
      exact (Nat.ne_of_lt h1).symm
    · exact h2 p h
  have hread : ∀ ref : ℕ, ref ≠ r.kalmanRef →
      heapRead ((recordH r ts).heap.set r.kalmanRef s) ref =
        heapRead (recordH r ts).heap ref :=
    fun ref hne => heapRead_set_ne (recordH r ts).heap r.kalmanRef ref s hne
  have hkr : (recordH r ts).kalmanRef = r.kalmanRef := rfl
  refine ⟨?_, ?_, ?_⟩
  · cases hg : dictGet ts (recordH r ts).recordRefs with
    | none => simp [snapshotAt, mutateKalman, hg]
    | some ref =>
        have hmem := dictGet_mem ts (recordH r ts).recordRefs ref hg
        have hne : ref ≠ r.kalmanRef := hrefs (ts, ref) hmem
        simp [snapshotAt, mutateKalman, hg, hkr, hread ref hne]
  · refine List.map_congr_left ?_
    intro ref hrefmem
    rcases List.mem_map.mp hrefmem with ⟨q, hq, hq2⟩
    have hne : ref ≠ r.kalmanRef := hq2 ▸ hrefs q hq
    simp [mutateKalman, hkr, hread ref hne]
  · refine List.map_congr_left ?_
    intro ref hrefmem
    rcases List.mem_map.mp hrefmem with ⟨q, hq, hq2⟩
    have hne : ref ≠ r.kalmanRef := hq2 ▸ hrefs q hq
    simp [mutateKalman, hkr, hread ref hne]

/-- A concrete heap recorder: one live estimator cell, nothing recorded
yet. -/
def exampleHeapRec : RecorderHeap ℤ :=
  ⟨[⟨⟨7, 8, 9⟩, rotZ90, Mat3.id⟩], 0, []⟩

/-- The state the live estimator is mutated to after the record. -/
def mutatedKalman : KalmanState ℤ :=
  ⟨⟨-1, -2, -3⟩, Mat3.id, rotZ90⟩

/-- C9 witness: a concrete record followed by a concrete mutation. -/
theorem C9_witness :
    snapshotAt (mutateKalman (recordH exampleHeapRec 5) mutatedKalman) 5 =
        snapshotAt (recordH exampleHeapRec 5) 5 ∧
      get_positionsH (mutateKalman (recordH exampleHeapRec 5) mutatedKalman) =
        get_positionsH (recordH exampleHeapRec 5) ∧
      get_attitudeH (mutateKalman (recordH exampleHeapRec 5) mutatedKalman) =
        get_attitudeH (recordH exampleHeapRec 5) :=
  C9_deepcopy_no_alias exampleHeapRec 5 mutatedKalman (by decide)
    (by simp [exampleHeapRec])

/-!
## C7: the ENU rotation sends local "up" to (0, 0, 1)
-/

/-- C7: for every latitude strictly inside (-pi/2, pi/2) and every
longitude, the rotation `ecef2enu` maps the local "up" ECEF unit vector
`(cos lat cos lon, cos lat sin lon, sin lat)` to the ENU vector
`(0, 0, 1)`. -/
theorem C7_enu_maps_up (lat lon : ℝ) (h1 : -(Real.pi / 2) < lat)
    (h2 : lat < Real.pi / 2) :
    (ecef2enu lat lon).apply (localUp lat lon) = ⟨0, 0, 1⟩ := by
  have hlat := Real.sin_sq_add_cos_sq lat
  have hlon := Real.sin_sq_add_cos_sq lon
  refine Vec3.mk.injEq .. ▸ ⟨?_, ?_, ?_⟩ <;>
    simp only [ecef2enu, permECEF, Matlon, MatLat, MatNorthPole, Mat3.mul,
      Mat3.transpose, Mat3.apply, Mat3.col1, Mat3.col2, Mat3.col3, Vec3.dot,
      localUp, Real.sin_pi_div_two_sub, Real.cos_pi_div_two_sub]
  · linear_combination
  · linear_combination (-(Real.sin lat * Real.cos lat)) * hlon
  · linear_combination (Real.cos lat ^ 2) * hlon + hlat

/-- C7 witness: the reference point latitude 0, longitude 0. -/
theorem C7_witness : (ecef2enu 0 0).apply (localUp 0 0) = ⟨0, 0, 1⟩ :=
  C7_enu_maps_up 0 0 (neg_lt_zero.mpr Real.pi_div_two_pos) Real.pi_div_two_pos
